import Mathlib

/-!
Shallow embedding of the go-htmx-mongo post CRUD service: the `Post` entity
(`internal/model/post.go`), the Mongo-backed repository
(`internal/repository/post_repository.go`) modelled as pure functions over an
in-memory list of records, and the business layer
(`internal/service/post_service.go`).

Go strings are modelled as `List Char` (their rune sequences); Go's `len`
(byte length) is `utf8Len`; `time.Time` values are `Nat` instants.
-/

namespace GoHtmxMongo

/-- Go `unicode.IsSpace`: the Unicode White_Space code points
(`\t \n \v \f \r ' '`, NEL, NBSP, and the higher White_Space code points). -/
def goIsSpace (c : Char) : Bool :=
  c.toNat ∈ [0x9, 0xA, 0xB, 0xC, 0xD, 0x20, 0x85, 0xA0, 0x1680,
    0x2000, 0x2001, 0x2002, 0x2003, 0x2004, 0x2005, 0x2006, 0x2007,
    0x2008, 0x2009, 0x200A, 0x2028, 0x2029, 0x202F, 0x205F, 0x3000]

/-- Go `len(s)`: the UTF-8 byte length of the string. -/
def utf8Len (s : List Char) : Nat :=
  (s.map Char.utf8Size).sum

/-- Remove trailing characters satisfying `goIsSpace` (the second half of
Go `strings.TrimSpace`). -/
def dropTrailing (s : List Char) : List Char :=
  (s.reverse.dropWhile goIsSpace).reverse

/-- Go `strings.TrimSpace`: strip leading and trailing Unicode whitespace. -/
def trimSpace (s : List Char) : List Char :=
  dropTrailing (s.dropWhile goIsSpace)

/-- `model.Post`: `ID` is the 12-byte ObjectID, timestamps are `Nat` instants
(`created_at`, `updated_at`). -/
structure Post where
  id : List Nat
  title : List Char
  content : List Char
  createdAt : Nat
  updatedAt : Nat
deriving DecidableEq, Repr

/-- `Post.Validate` from `post.go`: four checks in order, first failure wins;
`none` means the post is valid, `some msg` carries the error message. -/
def Post.Validate (p : Post) : Option String :=
  if trimSpace p.title = [] then some "title is required"
  else if 200 < utf8Len p.title then some "title must be less than 200 characters"
  else if trimSpace p.content = [] then some "content is required"
  else if 10000 < utf8Len p.content then some "content must be less than 10000 characters"
  else none

/-- `model.NewPost`: trims both fields and stamps both timestamps with the
single `time.Now()` value `now`; the ID is Go's zero ObjectID. -/
def NewPost (title content : List Char) (now : Nat) : Post :=
  { id := List.replicate 12 0
    title := trimSpace title
    content := trimSpace content
    createdAt := now
    updatedAt := now }

/-- `Post.Update` (entity): overwrite title/content with trimmed values and
refresh `updatedAt` to `now`; `createdAt` and `id` untouched. -/
def Post.Update (p : Post) (title content : List Char) (now : Nat) : Post :=
  { p with
    title := trimSpace title
    content := trimSpace content
    updatedAt := now }

/-- One pattern character against one subject character, under PCRE option
`i`: `.` matches anything, otherwise compare case-folded. -/
def charMatchCI (pc c : Char) : Bool :=
  pc = '.' || pc.toLower = c.toLower

/-- Anchored match of the whole pattern at the start of the subject. -/
def matchHere (pat s : List Char) : Bool :=
  match pat, s with
  | [], _ => true
  | _ :: _, [] => false
  | pc :: ps, c :: cs => charMatchCI pc c && matchHere ps cs

/-- Mongo `$regex` with `$options: "i"` as used by the repository: unanchored
case-insensitive search of the pattern in the subject. The repository passes
the user query through unescaped, so the query is a PCRE pattern; this model
covers the PCRE fragment of literal characters plus the `.` metacharacter and
agrees with PCRE on every pattern containing no other metacharacter. -/
def regexFindCI (pat : List Char) : List Char → Bool
  | [] => matchHere pat []
  | c :: cs => matchHere pat (c :: cs) || regexFindCI pat cs

/-- The `$or` filter of `Search`/`CountSearch`: the regex matches the title
or the content. -/
def searchMatch (query : List Char) (p : Post) : Bool :=
  regexFindCI query p.title || regexFindCI query p.content

/-- Spec-side predicate (from the spec's words, for comparison with the
code's `searchMatch`): `sub` is a prefix of `s` up to case. -/
def startsWithCI (sub s : List Char) : Bool :=
  match sub, s with
  | [], _ => true
  | _ :: _, [] => false
  | a :: as, b :: bs => (a.toLower = b.toLower) && startsWithCI as bs

/-- Spec-side predicate (from the spec's words): `s` contains `sub` as a
case-insensitive substring. -/
def containsCI (sub : List Char) : List Char → Bool
  | [] => startsWithCI sub []
  | c :: cs => startsWithCI sub (c :: cs) || containsCI sub cs

/-- Spec-side search predicate (from the spec's words): title or content
contains the query as a case-insensitive substring. -/
def substrMatch (query : List Char) (p : Post) : Bool :=
  containsCI query p.title || containsCI query p.content

/-- PCRE metacharacters (by code point: `. ^ $ * + ? ( ) [ ] \x7b \x7d | \`). -/
def isRegexMeta (c : Char) : Bool :=
  c.toNat ∈ [46, 94, 36, 42, 43, 63, 40, 41, 91, 93, 123, 125, 124, 92]

/-- Value of one hex digit, as accepted by Go `encoding/hex` (0-9, a-f, A-F). -/
def hexDigitVal (c : Char) : Option Nat :=
  if '0' ≤ c ∧ c ≤ '9' then some (c.toNat - 48)
  else if 'a' ≤ c ∧ c ≤ 'f' then some (c.toNat - 87)
  else if 'A' ≤ c ∧ c ≤ 'F' then some (c.toNat - 55)
  else none

/-- Go `hex.DecodeString`: pairs of hex digits to bytes; fails on odd length
or a non-hex character. -/
def hexDecode : List Char → Option (List Nat)
  | [] => some []
  | [_] => none
  | c1 :: c2 :: rest =>
    match hexDigitVal c1, hexDigitVal c2, hexDecode rest with
    | some h, some l, some bs => some ((16 * h + l) :: bs)
    | _, _, _ => none

/-- `primitive.ObjectIDFromHex`: a 24-byte hex string decoding to the 12-byte
ObjectID, `none` on wrong length or bad digit. -/
def objectIDFromHex (s : List Char) : Option (List Nat) :=
  if utf8Len s = 24 then hexDecode s else none

/-- The repository's two typed errors (`ErrPostNotFound`, `ErrInvalidID`). -/
inductive RepoErr where
  | ErrPostNotFound
  | ErrInvalidID
deriving DecidableEq, Repr

/-- Insert one post into a list already sorted by `createdAt` descending. -/
def insertPostDesc (p : Post) : List Post → List Post
  | [] => [p]
  | q :: qs => if q.createdAt < p.createdAt then p :: q :: qs else q :: insertPostDesc p qs

/-- The cursor sort `bson.D{{"created_at", -1}}`: order by `createdAt`
descending. -/
def sortByCreatedAtDesc : List Post → List Post
  | [] => []
  | p :: ps => insertPostDesc p (sortByCreatedAtDesc ps)

/-- Replace the first record with the given ObjectID (`UpdateOne` touches a
single matching document). -/
def updateFirst (oid : List Nat) (f : Post → Post) : List Post → List Post
  | [] => []
  | r :: rs => if r.id = oid then f r :: rs else r :: updateFirst oid f rs

/-- Remove the first record with the given ObjectID (`DeleteOne`). -/
def removeFirst (oid : List Nat) : List Post → List Post
  | [] => []
  | r :: rs => if r.id = oid then rs else r :: removeFirst oid rs

namespace Repo

/-- `mongoPostRepository.Create`: overwrite ID with a fresh ObjectID and both
timestamps with two successive `time.Now()` readings `t1`, `t2`, then insert.
Returns the new collection state and the mutated post. -/
def Create (store : List Post) (post : Post) (newId : List Nat) (t1 t2 : Nat) :
    List Post × Post :=
  let post' := { post with id := newId, createdAt := t1, updatedAt := t2 }
  (store ++ [post'], post')

/-- `mongoPostRepository.FindByID`: parse the hex ID (`ErrInvalidID` on
failure), then look the ObjectID up (`ErrPostNotFound` when absent). -/
def FindByID (store : List Post) (id : List Char) : Except RepoErr Post :=
  match objectIDFromHex id with
  | none => .error .ErrInvalidID
  | some oid =>
    match store.find? (fun p => p.id = oid) with
    | none => .error .ErrPostNotFound
    | some p => .ok p

/-- `mongoPostRepository.FindAll`: no filter, sort by `createdAt` descending,
skip `offset`, limit `limit`. -/
def FindAll (store : List Post) (limit offset : Nat) : List Post :=
  (((sortByCreatedAtDesc store).drop offset).take limit)

/-- `mongoPostRepository.Search`: `$or` regex filter (case-insensitive,
query unescaped), then the same sort/skip/limit as `FindAll`. -/
def Search (store : List Post) (query : List Char) (limit offset : Nat) : List Post :=
  (((sortByCreatedAtDesc (store.filter (searchMatch query))).drop offset).take limit)

/-- `mongoPostRepository.Update`: set `UpdatedAt := now` on the argument,
`$set` title/content/updated_at on the single document matching `_id`;
`ErrPostNotFound` when `MatchedCount == 0`. Returns the new collection state
and the outcome. -/
def Update (store : List Post) (post : Post) (now : Nat) :
    List Post × Except RepoErr Post :=
  let post' := { post with updatedAt := now }
  if store.any (fun r => r.id = post.id) then
    (updateFirst post.id
      (fun r => { r with title := post'.title, content := post'.content,
                         updatedAt := post'.updatedAt }) store,
     .ok post')
  else (store, .error .ErrPostNotFound)

/-- `mongoPostRepository.Delete`: parse the hex ID (`ErrInvalidID` on
failure), delete the single matching document, `ErrPostNotFound` when
`DeletedCount == 0`. Returns the new collection state and the outcome. -/
def Delete (store : List Post) (id : List Char) :
    List Post × Except RepoErr Unit :=
  match objectIDFromHex id with
  | none => (store, .error .ErrInvalidID)
  | some oid =>
    if store.any (fun r => r.id = oid) then
      (removeFirst oid store, .ok ())
    else (store, .error .ErrPostNotFound)

/-- `mongoPostRepository.Count`: `CountDocuments` with the empty filter. -/
def Count (store : List Post) : Nat :=
  store.length

/-- `mongoPostRepository.CountSearch`: `CountDocuments` with the same `$or`
regex filter as `Search`. -/
def CountSearch (store : List Post) (query : List Char) : Nat :=
  (store.filter (searchMatch query)).length

end Repo

/-- Service-layer error: a validation message or a propagated repository
error. -/
inductive SvcErr where
  | validation (msg : String)
  | repo (e : RepoErr)
deriving DecidableEq, Repr

namespace Service

/-- `PostService.GetPosts`: normalize page/pageSize, fetch the page and the
total, compute `totalPages` by integer division with a remainder bump.
Go `int` arithmetic is `Int` with truncated division/modulus (`tdiv`/`tmod`);
the normalized `pageSize` and the offset are nonnegative, so the `.toNat`
conversions at the repository boundary are exact. -/
def GetPosts (store : List Post) (page pageSize : Int) : List Post × Int :=
  let page := if page < 1 then 1 else page
  let pageSize := if pageSize < 1 then 10 else pageSize
  let pageSize := if pageSize > 100 then 100 else pageSize
  let offset := (page - 1) * pageSize
  let posts := Repo.FindAll store pageSize.toNat offset.toNat
  let total : Int := Int.ofNat (Repo.Count store)
  let totalPages := total.tdiv pageSize + (if total.tmod pageSize ≠ 0 then 1 else 0)
  (posts, totalPages)

/-- `PostService.SearchPosts`: same normalization and pagination math as
`GetPosts`, with `Search`/`CountSearch` in place of `FindAll`/`Count`. -/
def SearchPosts (store : List Post) (query : List Char) (page pageSize : Int) :
    List Post × Int :=
  let page := if page < 1 then 1 else page
  let pageSize := if pageSize < 1 then 10 else pageSize
  let pageSize := if pageSize > 100 then 100 else pageSize
  let offset := (page - 1) * pageSize
  let posts := Repo.Search store query pageSize.toNat offset.toNat
  let total : Int := Int.ofNat (Repo.CountSearch store query)
  let totalPages := total.tdiv pageSize + (if total.tmod pageSize ≠ 0 then 1 else 0)
  (posts, totalPages)

/-- `PostService.CreatePost`: build the entity at time `now`, validate,
persist via `Repo.Create` (fresh id `newId`, insertion times `t1`, `t2`). -/
def CreatePost (store : List Post) (title content : List Char)
    (newId : List Nat) (now t1 t2 : Nat) : Except String (List Post × Post) :=
  let post := NewPost title content now
  match post.Validate with
  | some msg => .error msg
  | none => .ok (Repo.Create store post newId t1 t2)

/-- `PostService.UpdatePost`: load by id, apply the entity `Update` at time
`nowE`, validate, persist via `Repo.Update` at time `nowR`. -/
def UpdatePost (store : List Post) (id title content : List Char)
    (nowE nowR : Nat) : List Post × Except SvcErr Post :=
  match Repo.FindByID store id with
  | .error e => (store, .error (.repo e))
  | .ok post =>
    let post := post.Update title content nowE
    match post.Validate with
    | some msg => (store, .error (.validation msg))
    | none =>
      match Repo.Update store post nowR with
      | (store', .ok p) => (store', .ok p)
      | (store', .error e) => (store', .error (.repo e))

end Service

/-- Spec-side page normalization (from the spec's words): values below 1
become 1. -/
def normPage (page : Int) : Int :=
  if page < 1 then 1 else page

/-- Spec-side page-size normalization (from the spec's words): default 10
when below 1, capped at 100. -/
def normPageSize (pageSize : Int) : Int :=
  if pageSize < 1 then 10
  else if pageSize > 100 then 100
  else pageSize

/-- A demo post with id `[i]` and creation instant `i`. -/
def mkDemoPost (i : Nat) : Post :=
  { id := [i], title := ['t'], content := ['c'], createdAt := i, updatedAt := i }

/-- Fifteen stored demo posts with distinct creation instants. -/
def demo15 : List Post :=
  (List.range 15).map mkDemoPost

/-- The spec's search example: three posts, two of them Go-titled. -/
def goDemoStore : List Post :=
  [ { id := [1], title := "Go Programming".toList, content := "c1".toList,
      createdAt := 3, updatedAt := 3 },
    { id := [2], title := "Python Basics".toList, content := "c2".toList,
      createdAt := 2, updatedAt := 2 },
    { id := [3], title := "Go Advanced".toList, content := "c3".toList,
      createdAt := 1, updatedAt := 1 } ]

/-- A post whose title and content contain no dot, for the `"."` query
counterexample. -/
def pDot : Post :=
  { id := [9], title := "ab".toList, content := "xy".toList,
    createdAt := 1, updatedAt := 1 }

/-- Two-record store with distinct ids, for concrete update runs. -/
def updDemoStore : List Post :=
  [ { id := [1], title := "one".toList, content := "c1".toList,
      createdAt := 1, updatedAt := 1 },
    { id := [2], title := "two".toList, content := "c2".toList,
      createdAt := 2, updatedAt := 2 } ]

/-- A 250-character raw title whose trimmed form has exactly 200
characters. -/
def rawTitle250 : List Char :=
  List.replicate 25 ' ' ++ List.replicate 200 'a' ++ List.replicate 25 ' '

/-- A post carrying an id present in `updDemoStore`, for concrete update
runs. -/
def updPost : Post :=
  { id := [2], title := "new".toList, content := "nc".toList,
    createdAt := 2, updatedAt := 2 }

/-- A syntactically valid 24-character hex ObjectID string. -/
def hexId24 : List Char := "507f1f77bcf86cd799439011".toList

/-- The stored post whose ObjectID is the decoding of `hexId24`. -/
def hexPost1 : Post :=
  { id := [0x50, 0x7f, 0x1f, 0x77, 0xbc, 0xf8, 0x6c, 0xd7, 0x99, 0x43, 0x90, 0x11],
    title := "one".toList, content := "c1".toList, createdAt := 1, updatedAt := 1 }

/-- One-record store addressable through `hexId24`. -/
def hexDemoStore : List Post := [hexPost1]

theorem dropWhile_dropWhile (p : Char → Bool) (l : List Char) :
    (l.dropWhile p).dropWhile p = l.dropWhile p := by
  induction l with
  | nil => rfl
  | cons c cs ih =>
    by_cases h : p c
    · simp [List.dropWhile, h, ih]
    · simp [List.dropWhile, h]

theorem dropTrailing_isPre (u : List Char) : dropTrailing u <+: u := by
  have h1 : u.reverse.dropWhile goIsSpace <:+ u.reverse := List.dropWhile_suffix _
  have h2 := List.reverse_prefix.mpr h1
  rwa [List.reverse_reverse] at h2

theorem trimSpace_idem (s : List Char) : trimSpace (trimSpace s) = trimSpace s := by
  unfold trimSpace
  set u := s.dropWhile goIsSpace with hu
  have hu2 : u.dropWhile goIsSpace = u := dropWhile_dropWhile _ _
  obtain ⟨t, ht⟩ := dropTrailing_isPre u
  have hstep1 : (dropTrailing u).dropWhile goIsSpace = dropTrailing u := by
    cases hdt : dropTrailing u with
    | nil => rfl
    | cons c cs =>
      rw [hdt] at ht
      have hc : goIsSpace c = false := by
        rw [← ht] at hu2
        by_contra hcc
        simp only [Bool.not_eq_false] at hcc
        rw [List.cons_append, List.dropWhile_cons, if_pos hcc] at hu2
        have hlen := (List.dropWhile_suffix (l := cs ++ t) goIsSpace).length_le
        rw [hu2] at hlen
        simp at hlen
      simp [List.dropWhile_cons, hc]
  have hstep2 : dropTrailing (dropTrailing u) = dropTrailing u := by
    unfold dropTrailing
    rw [List.reverse_reverse, dropWhile_dropWhile]
  rw [hstep1, hstep2]

theorem trimSpace_of_no_space (s : List Char) (h : ∀ c ∈ s, goIsSpace c = false) :
    trimSpace s = s := by
  have h1 : s.dropWhile goIsSpace = s := by
    cases s with
    | nil => rfl
    | cons c cs => simp [List.dropWhile_cons, h c (by simp)]
  have h2 : s.reverse.dropWhile goIsSpace = s.reverse := by
    cases hr : s.reverse with
    | nil => rfl
    | cons c cs =>
      have hm : c ∈ s := by rw [← List.mem_reverse, hr]; simp
      simp [List.dropWhile_cons, h c hm]
  unfold trimSpace dropTrailing
  rw [h1, h2, List.reverse_reverse]

theorem utf8Len_cons (c : Char) (s : List Char) :
    utf8Len (c :: s) = c.utf8Size + utf8Len s := by
  simp [utf8Len]

theorem utf8Len_replicate (n : Nat) (c : Char) :
    utf8Len (List.replicate n c) = n * c.utf8Size := by
  induction n with
  | zero => simp [utf8Len]
  | succ m ih => rw [List.replicate_succ, utf8Len_cons, ih]; ring

theorem validate_none_iff (p : Post) :
    p.Validate = none
      ↔ (trimSpace p.title ≠ [] ∧ utf8Len p.title ≤ 200
          ∧ trimSpace p.content ≠ [] ∧ utf8Len p.content ≤ 10000) := by
  unfold Post.Validate
  split_ifs <;> simp_all

theorem newPost_validate_iff (t c : List Char) (n : Nat) :
    ((NewPost t c n).Validate = none)
      ↔ (trimSpace t ≠ [] ∧ utf8Len (trimSpace t) ≤ 200
          ∧ trimSpace c ≠ [] ∧ utf8Len (trimSpace c) ≤ 10000) := by
  refine (validate_none_iff _).trans ?_
  rw [show (NewPost t c n).title = trimSpace t from rfl,
    show (NewPost t c n).content = trimSpace c from rfl,
    trimSpace_idem, trimSpace_idem]

theorem updEnt_validate_iff (p0 : Post) (t c : List Char) (n : Nat) :
    ((p0.Update t c n).Validate = none)
      ↔ (trimSpace t ≠ [] ∧ utf8Len (trimSpace t) ≤ 200
          ∧ trimSpace c ≠ [] ∧ utf8Len (trimSpace c) ≤ 10000) := by
  refine (validate_none_iff _).trans ?_
  rw [show (p0.Update t c n).title = trimSpace t from rfl,
    show (p0.Update t c n).content = trimSpace c from rfl,
    trimSpace_idem, trimSpace_idem]

theorem charMatchCI_no_meta (pc c : Char) (h : isRegexMeta pc = false) :
    charMatchCI pc c = decide (pc.toLower = c.toLower) := by
  have hne : pc ≠ '.' := by
    intro he
    subst he
    exact absurd h (by decide)
  simp [charMatchCI, hne]

theorem matchHere_no_meta (pat : List Char) (h : ∀ c ∈ pat, isRegexMeta c = false) :
    ∀ s, matchHere pat s = startsWithCI pat s := by
  induction pat with
  | nil => intro s; cases s <;> rfl
  | cons pc ps ih =>
    intro s
    cases s with
    | nil => rfl
    | cons c cs =>
      have h1 := h pc (by simp)
      have h2 : ∀ c ∈ ps, isRegexMeta c = false := fun x hx => h x (by simp [hx])
      simp [matchHere, startsWithCI, charMatchCI_no_meta _ _ h1, ih h2]

theorem regexFindCI_no_meta (pat : List Char) (h : ∀ c ∈ pat, isRegexMeta c = false)
    (s : List Char) : regexFindCI pat s = containsCI pat s := by
  induction s with
  | nil => simp [regexFindCI, containsCI, matchHere_no_meta pat h]
  | cons c cs ih => simp [regexFindCI, containsCI, matchHere_no_meta pat h, ih]

theorem regexFindCI_nil (s : List Char) : regexFindCI [] s = true := by
  cases s <;> simp [regexFindCI, matchHere]

theorem norm_chain (ps : Int) :
    (if (if ps < 1 then 10 else ps) > 100 then 100 else (if ps < 1 then 10 else ps))
      = normPageSize ps := by
  unfold normPageSize
  split_ifs <;> omega

theorem normPage_idem (p : Int) : normPage (normPage p) = normPage p := by
  unfold normPage
  split_ifs <;> omega

theorem normPageSize_idem (ps : Int) : normPageSize (normPageSize ps) = normPageSize ps := by
  unfold normPageSize
  split_ifs <;> omega

theorem one_le_normPageSize (ps : Int) : 1 ≤ normPageSize ps := by
  unfold normPageSize
  split_ifs <;> omega

theorem GetPosts_eq (store : List Post) (page pageSize : Int) :
    Service.GetPosts store page pageSize =
      (Repo.FindAll store (normPageSize pageSize).toNat
          ((normPage page - 1) * normPageSize pageSize).toNat,
       (Int.ofNat (Repo.Count store)).tdiv (normPageSize pageSize)
         + (if (Int.ofNat (Repo.Count store)).tmod (normPageSize pageSize) ≠ 0
            then 1 else 0)) := by
  simp only [Service.GetPosts]
  unfold normPage
  rw [norm_chain]

theorem SearchPosts_eq (store : List Post) (q : List Char) (page pageSize : Int) :
    Service.SearchPosts store q page pageSize =
      (Repo.Search store q (normPageSize pageSize).toNat
          ((normPage page - 1) * normPageSize pageSize).toNat,
       (Int.ofNat (Repo.CountSearch store q)).tdiv (normPageSize pageSize)
         + (if (Int.ofNat (Repo.CountSearch store q)).tmod (normPageSize pageSize) ≠ 0
            then 1 else 0)) := by
  simp only [Service.SearchPosts]
  unfold normPage
  rw [norm_chain]

theorem natCeil_div (n k : Nat) (hk : 0 < k) :
    n / k + (if n % k = 0 then 0 else 1) = (n + k - 1) / k := by
  have hdm := Nat.div_add_mod n k
  have hr : n % k < k := Nat.mod_lt _ hk
  by_cases h0 : n % k = 0
  · have e : n + k - 1 = k * (n / k) + (k - 1) := by omega
    rw [if_pos h0, e, Nat.mul_add_div hk]
    have : (k - 1) / k = 0 := Nat.div_eq_of_lt (by omega)
    omega
  · have hm : k * (n / k + 1) = k * (n / k) + k := by ring
    have e : n + k - 1 = k * (n / k + 1) + (n % k - 1) := by omega
    rw [if_neg h0, e, Nat.mul_add_div hk]
    have : (n % k - 1) / k = 0 := Nat.div_eq_of_lt (by omega)
    omega

theorem int_totalPages (n : Nat) (k : Int) (hk : 1 ≤ k) :
    (Int.ofNat n).tdiv k + (if (Int.ofNat n).tmod k ≠ 0 then 1 else 0)
      = Int.ofNat ((n + k.toNat - 1) / k.toNat) := by
  have hkn : Int.ofNat k.toNat = k := by
    show ((k.toNat : Nat) : Int) = k
    exact Int.toNat_of_nonneg (by omega)
  have hkpos : 0 < k.toNat := by omega
  rw [← hkn]
  have htdiv : (Int.ofNat n).tdiv (Int.ofNat k.toNat) = Int.ofNat (n / k.toNat) := rfl
  have htmod : (Int.ofNat n).tmod (Int.ofNat k.toNat) = Int.ofNat (n % k.toNat) := rfl
  have htn : (Int.ofNat k.toNat).toNat = k.toNat := rfl
  rw [htdiv, htmod, htn, ← natCeil_div n k.toNat hkpos]
  by_cases h0 : n % k.toNat = 0
  · rw [h0, if_pos rfl, if_neg (by decide)]
    rfl
  · rw [if_neg h0,
      if_pos (show Int.ofNat (n % k.toNat) ≠ 0 from fun he => h0 (Int.ofNat_eq_zero.mp he))]
    rfl

theorem utf8Size_one_of_le (c : Char) (h : c.toNat ≤ 127) : c.utf8Size = 1 := by
  unfold Char.utf8Size
  rw [if_pos]
  rw [UInt32.le_def, BitVec.le_def]
  exact h

theorem hex_char_ascii (c : Char) (h : (hexDigitVal c).isSome = true) : c.toNat ≤ 127 := by
  unfold hexDigitVal at h
  split_ifs at h with h1 h2 h3
  · have h9 := h1.2
    rw [Char.le_def, UInt32.le_def, BitVec.le_def] at h9
    exact Nat.le_trans h9 (by decide)
  · have h9 := h2.2
    rw [Char.le_def, UInt32.le_def, BitVec.le_def] at h9
    exact Nat.le_trans h9 (by decide)
  · have h9 := h3.2
    rw [Char.le_def, UInt32.le_def, BitVec.le_def] at h9
    exact Nat.le_trans h9 (by decide)
  · simp at h

theorem hexDecode_isSome_iff : ∀ s : List Char,
    (hexDecode s).isSome = true
      ↔ (s.length % 2 = 0 ∧ ∀ c ∈ s, (hexDigitVal c).isSome = true)
  | [] => by simp [hexDecode]
  | [c] => by simp [hexDecode]
  | c1 :: c2 :: rest => by
    have ih := hexDecode_isSome_iff rest
    have hlen : (c1 :: c2 :: rest).length % 2 = rest.length % 2 := by
      simp [List.length_cons]
      omega
    unfold hexDecode
    rw [List.forall_mem_cons, List.forall_mem_cons, hlen]
    cases h1 : hexDigitVal c1 <;> cases h2 : hexDigitVal c2 <;>
        cases h3 : hexDecode rest <;>
      simp only [h1, h2, h3] at ih ⊢ <;> simp [ih] <;>
      first
      | exact ih.mp (by simp)
      | (intro he
         have hna : ¬∀ c ∈ rest, (hexDigitVal c).isSome = true := fun hall => by
           have hcon := ih.mpr ⟨he, hall⟩
           simp at hcon
         push_neg at hna
         obtain ⟨x, hx, hne⟩ := hna
         exact ⟨x, hx, Option.not_isSome_iff_eq_none.mp (by simpa using hne)⟩)

theorem utf8Len_eq_length_of_hex (s : List Char)
    (h : ∀ c ∈ s, (hexDigitVal c).isSome = true) : utf8Len s = s.length := by
  induction s with
  | nil => rfl
  | cons c cs ih =>
    rw [utf8Len_cons, utf8Size_one_of_le c (hex_char_ascii c (h c (by simp))),
      ih (fun x hx => h x (by simp [hx]))]
    simp [List.length_cons]
    omega

theorem objectIDFromHex_isSome_iff (s : List Char) :
    (objectIDFromHex s).isSome = true
      ↔ (utf8Len s = 24 ∧ ∀ c ∈ s, (hexDigitVal c).isSome = true) := by
  unfold objectIDFromHex
  split_ifs with h24
  · rw [hexDecode_isSome_iff]
    constructor
    · rintro ⟨-, hall⟩
      exact ⟨h24, hall⟩
    · rintro ⟨-, hall⟩
      refine ⟨?_, hall⟩
      have := utf8Len_eq_length_of_hex s hall
      omega
  · constructor
    · intro h
      simp at h
    · rintro ⟨h24x, -⟩
      exact absurd h24x h24

theorem updateFirst_eq_map (oid : List Nat) (f : Post → Post) :
    ∀ store : List Post, (store.map Post.id).Nodup →
      updateFirst oid f store = store.map (fun q => if q.id = oid then f q else q)
  | [], _ => rfl
  | r :: rs, h => by
    rw [List.map_cons, List.nodup_cons] at h
    by_cases hr : r.id = oid
    · have hrs : ∀ q ∈ rs, (if q.id = oid then f q else q) = q := by
        intro q hq
        rw [if_neg]
        intro he
        exact h.1 (by rw [hr, ← he]; exact List.mem_map_of_mem Post.id hq)
      have hmap : rs.map (fun q => if q.id = oid then f q else q) = rs := by
        rw [List.map_congr_left (g := id) hrs, List.map_id]
      simp [updateFirst, hr, hmap]
    · simp [updateFirst, hr, updateFirst_eq_map oid f rs h.2]

theorem mem_updateFirst (oid : List Nat) (f : Post → Post) :
    ∀ store q, q ∈ updateFirst oid f store →
      q ∈ store ∨ ∃ r ∈ store, r.id = oid ∧ q = f r
  | [], q, h => by simp [updateFirst] at h
  | r :: rs, q, h => by
    by_cases hr : r.id = oid
    · simp only [updateFirst, if_pos hr] at h
      rcases List.mem_cons.mp h with he | hm
      · exact Or.inr ⟨r, by simp, hr, he⟩
      · exact Or.inl (by simp [hm])
    · simp only [updateFirst, if_neg hr] at h
      rcases List.mem_cons.mp h with he | hm
      · exact Or.inl (by simp [he])
      · rcases mem_updateFirst oid f rs q hm with hin | ⟨r2, hr2, hid2, hq2⟩
        · exact Or.inl (by simp [hin])
        · exact Or.inr ⟨r2, by simp [hr2], hid2, hq2⟩

/-- C1 (counterexample): for the query `"."` (a regex metacharacter) the
repository `Search` returns a post whose title and content do not contain
`"."` as a substring, and `CountSearch` counts it, refuting the claim that
every query is matched as a case-insensitive substring. -/
theorem C1_counterexample :
    Repo.Search [pDot] ".".toList 10 0 = [pDot]
    ∧ substrMatch ".".toList pDot = false
    ∧ Repo.CountSearch [pDot] ".".toList = 1
    ∧ Repo.Count ([pDot].filter (substrMatch ".".toList)) = 0 := by
  decide

/-- C1 (amended): for every query containing no regex metacharacter, `Search`
returns exactly the stored records whose title or content contains the query
as a case-insensitive substring — with the same sort and skip/limit pipeline
as `FindAll`, applied to the matching records — and `CountSearch` counts that
same substring predicate; for other queries the string is interpreted as a
case-insensitive regular expression. -/
theorem C1_search_substring (store : List Post) (q : List Char)
    (limit offset : Nat) (hq : ∀ c ∈ q, isRegexMeta c = false) :
    Repo.Search store q limit offset
      = Repo.FindAll (store.filter (substrMatch q)) limit offset
    ∧ Repo.CountSearch store q = Repo.Count (store.filter (substrMatch q)) := by
  have hf : store.filter (searchMatch q) = store.filter (substrMatch q) :=
    List.filter_congr
      (fun p _ => by simp [searchMatch, substrMatch, regexFindCI_no_meta q hq])
  exact ⟨by unfold Repo.Search Repo.FindAll; rw [hf],
         by unfold Repo.CountSearch Repo.Count; rw [hf]⟩

/-- C1 (witness): the amended theorem at the spec's own example — query
`"go"` over the three-post store with two Go-titled posts. -/
theorem C1_witness :
    (∀ c ∈ "go".toList, isRegexMeta c = false)
    ∧ (Repo.Search goDemoStore "go".toList 10 0
        = Repo.FindAll (goDemoStore.filter (substrMatch "go".toList)) 10 0
      ∧ Repo.CountSearch goDemoStore "go".toList
        = Repo.Count (goDemoStore.filter (substrMatch "go".toList))) :=
  ⟨by decide, C1_search_substring goDemoStore "go".toList 10 0 (by decide)⟩

/-- C2: `Validate` runs its four checks in the fixed source order, returning
the first failing check's message and no aggregation — each message is
returned exactly when its check is the first to fail — and the 200/201 and
10000/10001 boundaries behave as claimed. -/
theorem C2_validate_rules :
    (∀ p : Post,
      (p.Validate = some "title is required" ↔ trimSpace p.title = [])
      ∧ (p.Validate = some "title must be less than 200 characters"
          ↔ trimSpace p.title ≠ [] ∧ 200 < utf8Len p.title)
      ∧ (p.Validate = some "content is required"
          ↔ trimSpace p.title ≠ [] ∧ utf8Len p.title ≤ 200 ∧ trimSpace p.content = [])
      ∧ (p.Validate = some "content must be less than 10000 characters"
          ↔ trimSpace p.title ≠ [] ∧ utf8Len p.title ≤ 200
            ∧ trimSpace p.content ≠ [] ∧ 10000 < utf8Len p.content)
      ∧ (p.Validate = none
          ↔ trimSpace p.title ≠ [] ∧ utf8Len p.title ≤ 200
            ∧ trimSpace p.content ≠ [] ∧ utf8Len p.content ≤ 10000))
    ∧ Post.Validate ⟨[], List.replicate 200 'a', ['c'], 0, 0⟩ = none
    ∧ Post.Validate ⟨[], List.replicate 201 'a', ['c'], 0, 0⟩
        = some "title must be less than 200 characters"
    ∧ Post.Validate ⟨[], ['t'], List.replicate 10000 'b', 0, 0⟩ = none
    ∧ Post.Validate ⟨[], ['t'], List.replicate 10001 'b', 0, 0⟩
        = some "content must be less than 10000 characters" := by
  have main : ∀ p : Post,
      (p.Validate = some "title is required" ↔ trimSpace p.title = [])
      ∧ (p.Validate = some "title must be less than 200 characters"
          ↔ trimSpace p.title ≠ [] ∧ 200 < utf8Len p.title)
      ∧ (p.Validate = some "content is required"
          ↔ trimSpace p.title ≠ [] ∧ utf8Len p.title ≤ 200 ∧ trimSpace p.content = [])
      ∧ (p.Validate = some "content must be less than 10000 characters"
          ↔ trimSpace p.title ≠ [] ∧ utf8Len p.title ≤ 200
            ∧ trimSpace p.content ≠ [] ∧ 10000 < utf8Len p.content)
      ∧ (p.Validate = none
          ↔ trimSpace p.title ≠ [] ∧ utf8Len p.title ≤ 200
            ∧ trimSpace p.content ≠ [] ∧ utf8Len p.content ≤ 10000) := by
    intro p
    unfold Post.Validate
    split_ifs <;> simp_all
  have hrep : ∀ (n : Nat) (ch : Char), goIsSpace ch = false →
      trimSpace (List.replicate n ch) = List.replicate n ch := by
    intro n ch hch
    exact trimSpace_of_no_space _
      (fun c hc => by rw [List.eq_of_mem_replicate hc]; exact hch)
  have hlen : ∀ (n : Nat) (ch : Char), ch.utf8Size = 1 →
      utf8Len (List.replicate n ch) = n := by
    intro n ch hch
    rw [utf8Len_replicate, hch, Nat.mul_one]
  have hne : ∀ (n : Nat) (ch : Char), 0 < n → goIsSpace ch = false →
      trimSpace (List.replicate n ch) ≠ [] := by
    intro n ch hn hch
    rw [hrep n ch hch]
    apply List.ne_nil_of_length_pos
    rw [List.length_replicate]
    omega
  refine ⟨main, ?_, ?_, ?_, ?_⟩
  · apply (main _).2.2.2.2.mpr
    refine ⟨hne 200 'a' (by omega) (by decide), ?_, by decide, by decide⟩
    rw [hlen 200 'a' (by decide)]
  · apply (main _).2.1.mpr
    refine ⟨hne 201 'a' (by omega) (by decide), ?_⟩
    rw [hlen 201 'a' (by decide)]
    omega
  · apply (main _).2.2.2.2.mpr
    refine ⟨by decide, by decide, hne 10000 'b' (by omega) (by decide), ?_⟩
    rw [hlen 10000 'b' (by decide)]
  · apply (main _).2.2.2.1.mpr
    refine ⟨by decide, by decide, hne 10001 'b' (by omega) (by decide), ?_⟩
    rw [hlen 10001 'b' (by decide)]
    omega

/-- C3: `GetPosts` and `SearchPosts` compute `totalPages` as the ceiling of
the store count divided by the normalized page size, which is always at
least 1; with 15 stored posts and page size 10, page 1 holds 10 items, page 2
the remaining 5, and `totalPages` is 2. -/
theorem C3_total_pages :
    (∀ (store : List Post) (page pageSize : Int),
      1 ≤ normPageSize pageSize
      ∧ (Service.GetPosts store page pageSize).2
          = Int.ofNat ((Repo.Count store + (normPageSize pageSize).toNat - 1)
              / (normPageSize pageSize).toNat)
      ∧ ∀ q, (Service.SearchPosts store q page pageSize).2
          = Int.ofNat ((Repo.CountSearch store q + (normPageSize pageSize).toNat - 1)
              / (normPageSize pageSize).toNat))
    ∧ (Service.GetPosts demo15 1 10).1.length = 10
    ∧ (Service.GetPosts demo15 1 10).2 = 2
    ∧ (Service.GetPosts demo15 2 10).1.length = 5
    ∧ (Service.GetPosts demo15 2 10).2 = 2
    ∧ (Service.GetPosts demo15 1 10).1 ++ (Service.GetPosts demo15 2 10).1
        = sortByCreatedAtDesc demo15 := by
  refine ⟨fun store page pageSize => ⟨one_le_normPageSize pageSize, ?_, fun q => ?_⟩,
    by decide, by decide, by decide, by decide, by decide⟩
  · rw [GetPosts_eq]
    exact int_totalPages (Repo.Count store) (normPageSize pageSize)
      (one_le_normPageSize pageSize)
  · rw [SearchPosts_eq]
    exact int_totalPages (Repo.CountSearch store q) (normPageSize pageSize)
      (one_le_normPageSize pageSize)

/-- C4: `GetPosts` and `SearchPosts` behave identically on raw and normalized
arguments (page below 1 becomes 1, page size below 1 becomes 10, above 100
becomes 100), and the fetched records are the ones at offset
`(normalizedPage - 1) * normalizedPageSize`. -/
theorem C4_normalization (store : List Post) (q : List Char) (page pageSize : Int) :
    Service.GetPosts store page pageSize
      = Service.GetPosts store (normPage page) (normPageSize pageSize)
    ∧ Service.SearchPosts store q page pageSize
      = Service.SearchPosts store q (normPage page) (normPageSize pageSize)
    ∧ (Service.GetPosts store page pageSize).1
      = Repo.FindAll store (normPageSize pageSize).toNat
          (((normPage page - 1) * normPageSize pageSize).toNat)
    ∧ (Service.SearchPosts store q page pageSize).1
      = Repo.Search store q (normPageSize pageSize).toNat
          (((normPage page - 1) * normPageSize pageSize).toNat) := by
  refine ⟨?_, ?_, ?_, ?_⟩
  · rw [GetPosts_eq, GetPosts_eq, normPage_idem, normPageSize_idem]
  · rw [SearchPosts_eq, SearchPosts_eq, normPage_idem, normPageSize_idem]
  · rw [GetPosts_eq]
  · rw [SearchPosts_eq]

/-- C5: `FindByID` and `Delete` return `ErrInvalidID` exactly when the id
string fails to parse as a 24-character hex ObjectID, and `ErrPostNotFound`
exactly when the id parses but no stored record carries it — so the two error
kinds are mutually exclusive and exhaustive over failed lookups. -/
theorem C5_error_kinds (store : List Post) (id : List Char) :
    ((objectIDFromHex id).isSome = true
        ↔ utf8Len id = 24 ∧ ∀ c ∈ id, (hexDigitVal c).isSome = true)
    ∧ (Repo.FindByID store id = .error .ErrInvalidID ↔ objectIDFromHex id = none)
    ∧ ((Repo.Delete store id).2 = .error .ErrInvalidID ↔ objectIDFromHex id = none)
    ∧ (Repo.FindByID store id = .error .ErrPostNotFound
        ↔ ∃ oid, objectIDFromHex id = some oid ∧ ∀ p ∈ store, p.id ≠ oid)
    ∧ ((Repo.Delete store id).2 = .error .ErrPostNotFound
        ↔ ∃ oid, objectIDFromHex id = some oid ∧ ∀ p ∈ store, p.id ≠ oid) := by
  refine ⟨objectIDFromHex_isSome_iff id, ?_, ?_, ?_, ?_⟩
  · unfold Repo.FindByID
    cases hp : objectIDFromHex id with
    | none => simp
    | some oid =>
      cases hf : store.find? (fun p => p.id = oid) <;> simp only [hf] <;> simp
  · unfold Repo.Delete
    cases hp : objectIDFromHex id with
    | none => simp
    | some oid =>
      by_cases ha : store.any (fun r => r.id = oid) = true <;> simp only [ha] <;> simp [ha]
  · unfold Repo.FindByID
    cases hp : objectIDFromHex id with
    | none => simp
    | some oid =>
      cases hf : store.find? (fun p => p.id = oid) with
      | none =>
        have hall := List.find?_eq_none.mp hf
        simp only [hf]
        simp
        intro p hmem
        simpa using hall p hmem
      | some p =>
        have hmem := List.mem_of_find?_eq_some hf
        have hid : p.id = oid := by simpa using List.find?_some hf
        simp only [hf]
        simp
        exact ⟨p, hmem, hid⟩
  · unfold Repo.Delete
    cases hp : objectIDFromHex id with
    | none => simp
    | some oid =>
      by_cases ha : store.any (fun r => r.id = oid) = true
      · have hex : ∃ p ∈ store, p.id = oid := by
          rw [List.any_eq_true] at ha
          simpa using ha
        obtain ⟨p, hmem, hid⟩ := hex
        simp only [ha]
        simp
        exact ⟨p, hmem, hid⟩
      · have hall : ∀ p ∈ store, p.id ≠ oid := by
          intro p hmem hid
          exact absurd (List.any_eq_true.mpr ⟨p, hmem, by simp [hid]⟩) ha
        simp only [Bool.not_eq_true] at ha
        simp only [ha]
        simp
        exact hall

/-- C6: under distinct stored ids, the store `Update` refreshes `updatedAt`
to the current time and persists exactly title, content and `updatedAt` on
the record matching the post's id, keeping every record's id and `createdAt`
and all non-matching records unchanged; with no matching record it returns
`ErrPostNotFound` and the store is untouched. -/
theorem C6_update_frame (store : List Post) (post : Post) (now : Nat)
    (hnd : (store.map Post.id).Nodup) :
    ((Repo.Update store post now).2 = .ok { post with updatedAt := now }
        ↔ ∃ p ∈ store, p.id = post.id)
    ∧ ((∀ p ∈ store, p.id ≠ post.id) →
        (Repo.Update store post now).2 = .error .ErrPostNotFound
        ∧ (Repo.Update store post now).1 = store)
    ∧ (Repo.Update store post now).1
        = store.map (fun q => if q.id = post.id
            then { q with title := post.title, content := post.content, updatedAt := now }
            else q) := by
  unfold Repo.Update
  by_cases ha : store.any (fun r => r.id = post.id) = true
  · have hex : ∃ p ∈ store, p.id = post.id := by simpa using List.any_eq_true.mp ha
    refine ⟨?_, ?_, ?_⟩
    · simp [ha, hex]
    · intro hall
      obtain ⟨p, hmem, hid⟩ := hex
      exact absurd hid (hall p hmem)
    · simp only [ha, if_true]
      exact updateFirst_eq_map _ _ store hnd
  · have hall : ∀ p ∈ store, p.id ≠ post.id := by
      intro p hmem hid
      exact ha (List.any_eq_true.mpr ⟨p, hmem, by simp [hid]⟩)
    have hmap : store.map (fun q => if q.id = post.id
        then { q with title := post.title, content := post.content, updatedAt := now }
        else q) = store := by
      have hrs : ∀ q ∈ store, (if q.id = post.id
          then { q with title := post.title, content := post.content, updatedAt := now }
          else q) = q := fun q hq => if_neg (hall q hq)
      rw [List.map_congr_left (g := id) hrs, List.map_id]
    refine ⟨?_, fun _ => ⟨?_, ?_⟩, ?_⟩ <;> simp [ha, hall, hmap]
    exact fun x hx => hall x hx

/-- C6 (witness): the frame theorem at a concrete two-record store with
distinct ids, updating the second record. -/
theorem C6_witness :
    (updDemoStore.map Post.id).Nodup
    ∧ ((Repo.Update updDemoStore updPost 9).2 = .ok { updPost with updatedAt := 9 }
        ↔ ∃ p ∈ updDemoStore, p.id = updPost.id)
    ∧ (Repo.Update updDemoStore updPost 9).1
        = updDemoStore.map (fun q => if q.id = updPost.id
            then { q with title := updPost.title, content := updPost.content,
                          updatedAt := 9 }
            else q) :=
  ⟨by decide, (C6_update_frame updDemoStore updPost 9 (by decide)).1,
   (C6_update_frame updDemoStore updPost 9 (by decide)).2.2⟩

/-- C7: `NewPost` never fails and produces a post whose title and content are
the whitespace-trimmed inputs and whose two timestamps both equal the
construction time; in particular trimming turns the padded inputs into `"A"`
and `"B"` with equal timestamps. -/
theorem C7_new_post :
    (∀ title content now,
      (NewPost title content now).title = trimSpace title
      ∧ (NewPost title content now).content = trimSpace content
      ∧ (NewPost title content now).createdAt = now
      ∧ (NewPost title content now).updatedAt = now)
    ∧ (NewPost "  A  ".toList "  B  ".toList 7).title = "A".toList
    ∧ (NewPost "  A  ".toList "  B  ".toList 7).content = "B".toList
    ∧ (NewPost "  A  ".toList "  B  ".toList 7).createdAt
        = (NewPost "  A  ".toList "  B  ".toList 7).updatedAt :=
  ⟨fun _ _ _ => ⟨rfl, rfl, rfl, rfl⟩, by decide, by decide, rfl⟩

/-- C8: `createdAt ≤ updatedAt` everywhere — construction stamps both equal;
the entity `Update` keeps `createdAt` and sets `updatedAt` to the (later)
current time; the store `Create` stamps its two successive clock readings;
and the store `Update` keeps every record's invariant when the clock is not
behind the stored creation times. -/
theorem C8_timestamps :
    (∀ title content now,
      (NewPost title content now).createdAt = (NewPost title content now).updatedAt)
    ∧ (∀ (p : Post) title content now,
        (p.Update title content now).createdAt = p.createdAt
        ∧ (p.Update title content now).updatedAt = now
        ∧ (p.createdAt ≤ now →
            (p.Update title content now).createdAt
              ≤ (p.Update title content now).updatedAt))
    ∧ (∀ store post newId t1 t2, (∀ p ∈ store, p.createdAt ≤ p.updatedAt) → t1 ≤ t2 →
        ∀ q ∈ (Repo.Create store post newId t1 t2).1, q.createdAt ≤ q.updatedAt)
    ∧ (∀ store post now, (∀ p ∈ store, p.createdAt ≤ p.updatedAt ∧ p.createdAt ≤ now) →
        ∀ q ∈ (Repo.Update store post now).1, q.createdAt ≤ q.updatedAt) := by
  refine ⟨fun _ _ _ => rfl, fun p _ _ now => ⟨rfl, rfl, fun h => h⟩, ?_, ?_⟩
  · intro store post newId t1 t2 hinv h12 q hq
    unfold Repo.Create at hq
    rcases List.mem_append.mp hq with hin | hnew
    · exact hinv q hin
    · simp at hnew
      rw [hnew]
      exact h12
  · intro store post now hinv q hq
    unfold Repo.Update at hq
    by_cases ha : store.any (fun r => r.id = post.id) = true
    · simp only [ha, if_true] at hq
      rcases mem_updateFirst _ _ store q hq with hin | ⟨r, hr, -, hqf⟩
      · exact (hinv q hin).1
      · rw [hqf]
        exact (hinv r hr).2
    · simp only [ha, if_false] at hq
      exact (hinv q hq).1

/-- C8 (witness): the timestamp invariant theorem at concrete posts, stores
and clock values. -/
theorem C8_witness :
    ((mkDemoPost 3).createdAt ≤ 5
      ∧ ((mkDemoPost 3).Update "x".toList "y".toList 5).createdAt
          ≤ ((mkDemoPost 3).Update "x".toList "y".toList 5).updatedAt)
    ∧ ((∀ p ∈ updDemoStore, p.createdAt ≤ p.updatedAt) ∧ (1 : Nat) ≤ 2
      ∧ ∀ q ∈ (Repo.Create updDemoStore (mkDemoPost 0) [7] 1 2).1,
          q.createdAt ≤ q.updatedAt)
    ∧ ((∀ p ∈ updDemoStore, p.createdAt ≤ p.updatedAt ∧ p.createdAt ≤ 9)
      ∧ ∀ q ∈ (Repo.Update updDemoStore updPost 9).1, q.createdAt ≤ q.updatedAt) :=
  ⟨⟨by decide, (C8_timestamps.2.1 (mkDemoPost 3) "x".toList "y".toList 5).2.2 (by decide)⟩,
   ⟨by decide, by decide,
    C8_timestamps.2.2.1 updDemoStore (mkDemoPost 0) [7] 1 2 (by decide) (by decide)⟩,
   ⟨by decide, C8_timestamps.2.2.2 updDemoStore updPost 9 (by decide)⟩⟩

set_option maxRecDepth 4000 in
/-- C9: `CreatePost` passes validation exactly when the trimmed title is
non-empty with at most 200 bytes and the trimmed content is non-empty with at
most 10000 bytes — trimming happens before `Validate`, so the length checks
never see surrounding whitespace — and the same holds for the entity update
inside `UpdatePost` once the record is found; a 250-character raw title that
trims to 200 characters is accepted. -/
theorem C9_trim_before_validate :
    (∀ store title content newId now t1 t2,
      (∃ st p, Service.CreatePost store title content newId now t1 t2 = .ok (st, p))
        ↔ (trimSpace title ≠ [] ∧ utf8Len (trimSpace title) ≤ 200
            ∧ trimSpace content ≠ [] ∧ utf8Len (trimSpace content) ≤ 10000))
    ∧ (∀ store id title content nowE nowR p0, Repo.FindByID store id = .ok p0 →
        ((∃ st p, Service.UpdatePost store id title content nowE nowR = (st, .ok p))
          ↔ (trimSpace title ≠ [] ∧ utf8Len (trimSpace title) ≤ 200
              ∧ trimSpace content ≠ [] ∧ utf8Len (trimSpace content) ≤ 10000)))
    ∧ (∃ st p, Service.CreatePost [] rawTitle250 "c".toList [] 0 0 0 = .ok (st, p))
    ∧ utf8Len rawTitle250 = 250 ∧ utf8Len (trimSpace rawTitle250) = 200 := by
  have hcreate : ∀ store title content newId now t1 t2,
      (∃ st p, Service.CreatePost store title content newId now t1 t2 = .ok (st, p))
        ↔ (trimSpace title ≠ [] ∧ utf8Len (trimSpace title) ≤ 200
            ∧ trimSpace content ≠ [] ∧ utf8Len (trimSpace content) ≤ 10000) := by
    intro store t c newId now t1 t2
    unfold Service.CreatePost
    cases hv : (NewPost t c now).Validate with
    | some msg =>
      simp only [hv]
      constructor
      · rintro ⟨st, p, h⟩
        simp at h
      · intro hc
        have h0 := (newPost_validate_iff t c now).mpr hc
        rw [hv] at h0
        exact absurd h0 (by simp)
    | none =>
      simp only [hv]
      exact ⟨fun _ => (newPost_validate_iff t c now).mp hv, fun _ => ⟨_, _, rfl⟩⟩
  refine ⟨hcreate, ?_,
    (hcreate [] rawTitle250 "c".toList [] 0 0 0).mpr (by decide), by decide, by decide⟩
  intro store id t c nowE nowR p0 hfind
  unfold Repo.FindByID at hfind
  cases hp : objectIDFromHex id with
  | none =>
    simp only [hp] at hfind
    exact Except.noConfusion hfind
  | some oid =>
    simp only [hp] at hfind
    cases hf : store.find? (fun p => p.id = oid) with
    | none =>
      simp only [hf] at hfind
      exact Except.noConfusion hfind
    | some pf =>
      simp only [hf] at hfind
      simp at hfind
      subst hfind
      have hmem := List.mem_of_find?_eq_some hf
      have hid : pf.id = oid := by simpa using List.find?_some hf
      unfold Service.UpdatePost Repo.FindByID
      simp only [hp, hf]
      cases hv : (pf.Update t c nowE).Validate with
      | some msg =>
        simp only [hv]
        constructor
        · rintro ⟨st, p, h⟩
          simp at h
        · intro hc
          have h0 := (updEnt_validate_iff pf t c nowE).mpr hc
          rw [hv] at h0
          exact absurd h0 (by simp)
      | none =>
        simp only [hv]
        have ha : store.any (fun r => r.id = (Post.Update pf t c nowE).id) = true :=
          List.any_eq_true.mpr ⟨pf, hmem, by simp [Post.Update]⟩
        unfold Repo.Update
        simp only [ha, if_true]
        exact ⟨fun _ => (updEnt_validate_iff pf t c nowE).mp hv, fun _ => ⟨_, _, rfl⟩⟩

/-- C9 (witness): the `UpdatePost` half of the claim at a concrete store
found through a valid hex id. -/
theorem C9_witness :
    Repo.FindByID hexDemoStore hexId24 = .ok hexPost1
    ∧ ((∃ st p, Service.UpdatePost hexDemoStore hexId24 "t".toList "c".toList 5 6
          = (st, .ok p))
        ↔ (trimSpace "t".toList ≠ [] ∧ utf8Len (trimSpace "t".toList) ≤ 200
            ∧ trimSpace "c".toList ≠ [] ∧ utf8Len (trimSpace "c".toList) ≤ 10000)) :=
  ⟨rfl,
   C9_trim_before_validate.2.1 hexDemoStore hexId24 "t".toList "c".toList 5 6 hexPost1 rfl⟩

/-- C10: the empty query matches every stored record — `Search` with the
empty string returns the same records in the same order as `FindAll`, and
`CountSearch` of the empty string equals `Count`. -/
theorem C10_empty_query (store : List Post) (limit offset : Nat) :
    Repo.Search store [] limit offset = Repo.FindAll store limit offset
    ∧ Repo.CountSearch store [] = Repo.Count store := by
  have hf : store.filter (searchMatch []) = store :=
    List.filter_eq_self.mpr (fun p _ => by simp [searchMatch, regexFindCI_nil])
  exact ⟨by unfold Repo.Search Repo.FindAll; rw [hf],
         by unfold Repo.CountSearch Repo.Count; rw [hf]⟩

end GoHtmxMongo
